import Mathlib

set_option maxRecDepth 40000

/-!
Verification development for the tax-document extraction backend
(src/backend/main.py).  Strings are embedded as lists of Unicode code
points (ASCII range is what the program manipulates); Python floats are
embedded as rational numbers.  Each definition mirrors one Python
function or constant of the source file; claim-side definitions that
restate the specification text are marked as such in their doc comment.
-/

namespace TaxAgent

/-! ## Character-code helpers (ASCII fragment of the Python str methods) -/

/-- Code point of an ASCII decimal digit, as tested by Python str.isdigit
and the regex class backslash-d on the ASCII inputs this program sees. -/
def isDigitCode (c : Nat) : Bool := 48 ≤ c && c ≤ 57

/-- Uppercase ASCII letter test. -/
def isUpperCode (c : Nat) : Bool := 65 ≤ c && c ≤ 90

/-- Lowercase ASCII letter test. -/
def isLowerCode (c : Nat) : Bool := 97 ≤ c && c ≤ 122

/-- ASCII letter test; these are the cased characters in the ASCII range. -/
def isAlphaCode (c : Nat) : Bool := isUpperCode c || isLowerCode c

/-- Python str.lower on one ASCII code point. -/
def lowerCode (c : Nat) : Nat := if isUpperCode c then c + 32 else c

/-- Python str.upper on one ASCII code point. -/
def upperCode (c : Nat) : Nat := if isLowerCode c then c - 32 else c

/-- ASCII whitespace, as stripped by Python str.strip. -/
def isWsCode (c : Nat) : Bool := c == 32 || (9 ≤ c && c ≤ 13)

/-- Convert a Lean string literal to its list of code points (used to
write the program constants readably). -/
def strCodes (s : String) : List Nat := s.toList.map Char.toNat

/-- Code point 39, the apostrophe (kept out of string literals). -/
def apos : Nat := 39

/-! ## Answer Cleaner: clean_and_convert_to_float (main.py lines 77-98) -/

/-- Character class of the regex bracket-d-comma-bracket-plus part:
a digit or a comma. -/
def numChar (c : Nat) : Bool := isDigitCode c || c == 44

/-- State of the left-to-right scan implementing
re.findall of the number pattern (digits or commas, then an optional
dot, then optional digits): either between matches, inside the
digit-and-comma run, or inside the fractional part after the dot. -/
inductive NumScanState where
  | scan : NumScanState
  | run (acc : List Nat) : NumScanState
  | frac (whole : List Nat) (acc : List Nat) : NumScanState

/-- One pass of re.findall for the pattern digits-or-commas, optional
dot, optional digits.  Matching is greedy and resumes right after each
match, which is exactly the behaviour of this scan. -/
def findallGo : NumScanState → List Nat → List (List Nat)
  | .scan, [] => []
  | .run acc, [] => [acc]
  | .frac w acc, [] => [w ++ 46 :: acc]
  | .scan, c :: cs => if numChar c then findallGo (.run [c]) cs else findallGo .scan cs
  | .run acc, c :: cs =>
      if numChar c then findallGo (.run (acc ++ [c])) cs
      else if c == 46 then findallGo (.frac acc []) cs
      else acc :: findallGo .scan cs
  | .frac w acc, c :: cs =>
      if isDigitCode c then findallGo (.frac w (acc ++ [c])) cs
      else (w ++ 46 :: acc) :: (if numChar c then findallGo (.run [c]) cs else findallGo .scan cs)

/-- re.findall of the number-like pattern over the whole text. -/
def findallNums (t : List Nat) : List (List Nat) := findallGo .scan t

/-- Numeric value of a digit string, most significant digit first. -/
def natOfDigits (l : List Nat) : Nat := l.foldl (fun a c => 10 * a + (c - 48)) 0

/-- Python float() restricted to the strings reachable here (digits and
at most one dot, after commas were stripped); everything else fails,
modelling the ValueError branch. -/
def parsePyFloat (l : List Nat) : Option ℚ :=
  if l.all (fun c => isDigitCode c || c == 46) ∧ l.count 46 ≤ 1 ∧ l.any isDigitCode then
    some (mkRat (natOfDigits (l.filter isDigitCode))
      (10 ^ ((l.dropWhile (fun c => c != 46)).drop 1).length))
  else none

/-- Python str.strip (remove leading and trailing whitespace). -/
def pyStrip (l : List Nat) : List Nat :=
  ((l.dropWhile isWsCode).reverse.dropWhile isWsCode).reverse

/-- num_str.replace(comma, empty).replace(dollar, empty).strip() from the
source; dollar is code 36 and comma code 44. -/
def pyCleanNumStr (m : List Nat) : List Nat :=
  pyStrip ((m.filter (fun c => c != 44)).filter (fun c => c != 36))

/-- The list valid_numbers of the source: every match that survives
cleaning and float conversion, in match order. -/
def validNumbers (t : List Nat) : List ℚ :=
  (findallNums t).filterMap (fun m => parsePyFloat (pyCleanNumStr m))

/-- clean_and_convert_to_float from the source: 0 when no digit occurs,
otherwise the maximum of the successfully parsed matches, 0 when none
parses. -/
def clean_and_convert_to_float (t : List Nat) : ℚ :=
  if !(t.any isDigitCode) then 0
  else if (findallNums t).isEmpty then 0
  else
    match validNumbers t with
    | [] => 0
    | v :: vs => vs.foldl max v

/-! ### Overflow-aware float model

parsePyFloat above keeps the exact decimal value, the rational
embedding used for the value-level claims.  CPython float() however
silently saturates to infinity on decimal strings beyond the double
range (PyOS_string_to_double is called with no overflow exception, so
for example 400 nines give inf, not an error).  The definitions below
refine the cleaner with that saturation; in-range values stay exact
rationals as declared for the rest of the development. -/

/-- A Python float value as this program can observe it from float()
on digit-and-dot strings: a finite value or the positive infinity of a
silent overflow.  NaN is unreachable from these strings. -/
inductive PyFloat where
  | finite (q : ℚ) : PyFloat
  | inf : PyFloat
deriving DecidableEq, Repr

/-- Whether a float value is finite. -/
def PyFloat.isFinite : PyFloat → Bool
  | .finite _ => true
  | .inf => false

/-- Python max on the reachable float values: infinity absorbs, finite
values compare as rationals. -/
def pyMax : PyFloat → PyFloat → PyFloat
  | .inf, _ => .inf
  | .finite _, .inf => .inf
  | .finite a, .finite b => .finite (max a b)

/-- Smallest positive magnitude that CPython float() turns into
infinity: under IEEE-754 round-to-nearest-even, a decimal value of at
least 2 to the 1024 minus 2 to the 970 (the midpoint above the largest
finite double) rounds out of range, and float() then returns inf
without raising. -/
def PYFLOAT_OVERFLOW : ℚ := mkRat ((2 ^ 1024 - 2 ^ 970 : Nat) : Int) 1

/-- Python float() on the reachable strings including the silent
saturation: the exact decimal value of parsePyFloat, capped to
infinity at the double overflow threshold. -/
def parsePyFloatFl (l : List Nat) : Option PyFloat :=
  match parsePyFloat l with
  | none => none
  | some q => some (if PYFLOAT_OVERFLOW ≤ q then .inf else .finite q)

/-- The valid_numbers list under the overflow-aware float model. -/
def validNumbersFl (t : List Nat) : List PyFloat :=
  (findallNums t).filterMap (fun m => parsePyFloatFl (pyCleanNumStr m))

/-- clean_and_convert_to_float under the overflow-aware float model:
the same control flow as the source, with Python max over float
values. -/
def clean_and_convert_to_float_fl (t : List Nat) : PyFloat :=
  if !(t.any isDigitCode) then .finite 0
  else if (findallNums t).isEmpty then .finite 0
  else
    match validNumbersFl t with
    | [] => .finite 0
    | v :: vs => vs.foldl pyMax v

/-! ## Form-Page Filter: is_likely_tax_form_page (main.py lines 100-115)

Each regular-expression indicator is embedded as a Boolean matcher over
the code-point list; re.search tries a match at every position, and
matching is case-insensitive (IGNORECASE), which for the ASCII patterns
at hand means comparing lower-cased code points. -/

/-- Case-insensitive literal match of pat at the head of the text,
returning the remainder of the text on success. -/
def dropLitCI : List Nat → List Nat → Option (List Nat)
  | [], rest => some rest
  | _ :: _, [] => none
  | p :: ps, c :: cs => if lowerCode c == lowerCode p then dropLitCI ps cs else none

/-- re.search: try the position matcher at every position of the text. -/
def searchPos (m : List Nat → Bool) : List Nat → Bool
  | [] => m []
  | c :: cs => m (c :: cs) || searchPos m cs

/-- Case-insensitive substring search (a literal pattern under
re.search). -/
def searchCI (pat : List Nat) (t : List Nat) : Bool :=
  searchPos (fun l => (dropLitCI pat l).isSome) t

/-- The regex fragment dot-star followed by a literal: skip any number
of non-newline characters, then match pat. -/
def dotStarLitCI (pat : List Nat) : List Nat → Bool
  | [] => (dropLitCI pat []).isSome
  | c :: cs => (dropLitCI pat (c :: cs)).isSome || (c != 10 && dotStarLitCI pat cs)

/-- Indicator 1: the literal "OMB No." (the dot is escaped in the
source pattern). -/
def indOMB (t : List Nat) : Bool := searchCI (strCodes "OMB No.") t

/-- Indicator 2: the literal "Employer identification number". -/
def indEIN (t : List Nat) : Bool := searchCI (strCodes "Employer identification number") t

/-- The literal PAYER-apostrophe-S of the third indicator. -/
def payerPat : List Nat := strCodes "PAYER" ++ [apos] ++ strCodes "S"

/-- The literal RECIPIENT-apostrophe-S of the fourth indicator. -/
def recipientPat : List Nat := strCodes "RECIPIENT" ++ [apos] ++ strCodes "S"

/-- Indicator 3: PAYER-apostrophe-S, then dot-star, then TIN. -/
def indPayerTIN (t : List Nat) : Bool :=
  searchPos (fun l =>
    match dropLitCI payerPat l with
    | some r => dotStarLitCI (strCodes "TIN") r
    | none => false) t

/-- Indicator 4: RECIPIENT-apostrophe-S, then dot-star, then TIN. -/
def indRecipientTIN (t : List Nat) : Bool :=
  searchPos (fun l =>
    match dropLitCI recipientPat l with
    | some r => dotStarLitCI (strCodes "TIN") r
    | none => false) t

/-- Indicator 5: the literal "Copy " followed by one character of the
class A-Z or 0-9 (case-insensitive, hence also a-z). -/
def indCopy (t : List Nat) : Bool :=
  searchPos (fun l =>
    match dropLitCI (strCodes "Copy ") l with
    | some (c :: _) => isAlphaCode c || isDigitCode c
    | _ => false) t

/-- Two consecutive letters at the head of the text, the least the
class-repetition of two-to-three letters can consume. -/
def twoAlphaCI : List Nat → Bool
  | a :: b :: _ => isAlphaCode a && isAlphaCode b
  | _ => false

/-- Indicator 6: the literal "Form " followed by exactly four digits, an
optional hyphen, and two-to-three letters (two suffice for a match to
exist at a position). -/
def indFormCode (t : List Nat) : Bool :=
  searchPos (fun l =>
    match dropLitCI (strCodes "Form ") l with
    | some (d1 :: d2 :: d3 :: d4 :: r) =>
        isDigitCode d1 && isDigitCode d2 && isDigitCode d3 && isDigitCode d4 &&
        (twoAlphaCI r || (match r with | 45 :: r2 => twoAlphaCI r2 | _ => false))
    | _ => false) t

/-- The fixed list form_indicators of the source, in source order. -/
def form_indicators : List (List Nat → Bool) :=
  [indOMB, indEIN, indPayerTIN, indRecipientTIN, indCopy, indFormCode]

/-- is_likely_tax_form_page from the source: count the indicators whose
regex matches the page text and require at least two. -/
def is_likely_tax_form_page (t : List Nat) : Bool :=
  decide (2 ≤ form_indicators.countP (fun p => p t))

/-! ## Form Classifier (main.py lines 132-146) -/

/-- The closed set of form types handled by the program; unknown is the
sentinel used for unclassified pages. -/
inductive FormType where
  | w2 : FormType
  | nec1099 : FormType
  | int1099 : FormType
  | unknown : FormType
deriving DecidableEq, Repr

/-- form_type_keywords of the source, in the dictionary insertion order
the for-loop iterates in. -/
def form_type_keywords : List (FormType × List Nat) :=
  [(.w2, strCodes "Wages, tips, other compensation"),
   (.nec1099, strCodes "Nonemployee compensation"),
   (.int1099, strCodes "Interest Income")]

/-- The classification loop of extract_data_with_ai: first form type
whose keyword occurs (case-insensitively) in the page text, else
unknown. -/
def detectFormType (t : List Nat) : FormType :=
  match form_type_keywords.find? (fun p => searchCI p.2 t) with
  | some p => p.1
  | none => .unknown

/-! ## Field Extractor (main.py lines 151-180) -/

/-- One candidate answer of the question-answering capability: a text
and a confidence score. -/
structure CandidateAnswer where
  text : List Nat
  score : ℚ
deriving DecidableEq, Repr

/-- Stable insertion used by the descending sort: the new element goes
after every already-placed element whose score is at least its own. -/
def insertDesc (c : CandidateAnswer) : List CandidateAnswer → List CandidateAnswer
  | [] => [c]
  | d :: ds => if d.score < c.score then c :: d :: ds else d :: insertDesc c ds

/-- Python sorted with key score and reverse true: a stable sort by
descending score, here as a left-to-right stable insertion sort. -/
def pySortedDescByScore (l : List CandidateAnswer) : List CandidateAnswer :=
  l.foldl (fun acc c => insertDesc c acc) []

/-- CONFIDENCE_THRESHOLD = 0.1 of the source (as the exact rational). -/
def CONFIDENCE_THRESHOLD : ℚ := mkRat 1 10

/-- Question text for box 1 of a W-2. -/
def q_w2_wages : List Nat :=
  strCodes "What is the amount in box 1 for " ++ [apos] ++
    strCodes "Wages, tips, other compensation" ++ [apos] ++ strCodes "?"

/-- Question text for box 2 of a W-2. -/
def q_w2_withheld : List Nat :=
  strCodes "What is the amount in box 2 for " ++ [apos] ++
    strCodes "Federal income tax withheld" ++ [apos] ++ strCodes "?"

/-- Question text for box 1 of a 1099-NEC. -/
def q_nec : List Nat :=
  strCodes "What is the amount in box 1 for " ++ [apos] ++
    strCodes "Nonemployee compensation" ++ [apos] ++ strCodes "?"

/-- Question text for box 1 of a 1099-INT. -/
def q_int : List Nat :=
  strCodes "What is the amount in box 1 for " ++ [apos] ++
    strCodes "Interest Income" ++ [apos] ++ strCodes "?"

/-- The questions table of the source, keyed by form type; unknown has
no entry and the loop is never reached for it. -/
def questions : FormType → List (String × List Nat)
  | .w2 => [("wages_tips_other_comp", q_w2_wages),
            ("federal_income_tax_withheld", q_w2_withheld)]
  | .nec1099 => [("nonemployee_compensation", q_nec)]
  | .int1099 => [("interest_income", q_int)]
  | .unknown => []

/-- The per-field loop of extract_data_with_ai: ask the capability,
sort the candidates by descending score, take the first, and keep the
cleaned value only when the best score reaches the threshold.  The
capability is passed in as a function from question text to candidate
list. -/
def extractFields (qa : List Nat → List CandidateAnswer) :
    List (String × List Nat) → List (String × ℚ)
  | [] => []
  | (field, question) :: rest =>
      (match pySortedDescByScore (qa question) with
       | [] => []
       | best :: _ =>
           if CONFIDENCE_THRESHOLD ≤ best.score then
             [(field, clean_and_convert_to_float best.text)]
           else []) ++
      extractFields qa rest

/-- The extracted_data dictionary of the source: a form type and the
accepted field values in insertion order. -/
structure ExtractionRes where
  form_type : FormType
  fields : List (String × ℚ)
deriving DecidableEq, Repr

/-- extract_data_with_ai from the source.  Returns the extraction
result together with the list of question texts actually sent to the
question-answering capability (one per field of the classified type;
none when the page filter or the classifier rejects the page). -/
def extract_data_with_ai (qa : List Nat → List CandidateAnswer)
    (page_text : List Nat) : ExtractionRes × List (List Nat) :=
  if !is_likely_tax_form_page page_text then (⟨.unknown, []⟩, [])
  else
    match detectFormType page_text with
    | .unknown => (⟨.unknown, []⟩, [])
    | ft => (⟨ft, extractFields qa (questions ft)⟩, (questions ft).map Prod.snd)

/-! ## Aggregator (main.py lines 295-304) -/

/-- fields.get(key, 0.0) of the source. -/
def fieldsGet (fs : List (String × ℚ)) (k : String) : ℚ := (fs.lookup k).getD 0

/-- One step of the per-page accumulation of total_income and
total_federal_withheld in upload_tax_documents; unknown results are
skipped by the enclosing conditional. -/
def aggregateStep (acc : ℚ × ℚ) (r : ExtractionRes) : ℚ × ℚ :=
  match r.form_type with
  | .w2 => (acc.1 + fieldsGet r.fields "wages_tips_other_comp",
            acc.2 + fieldsGet r.fields "federal_income_tax_withheld")
  | .nec1099 => (acc.1 + fieldsGet r.fields "nonemployee_compensation", acc.2)
  | .int1099 => (acc.1 + fieldsGet r.fields "interest_income", acc.2)
  | .unknown => acc

/-- The whole accumulation over the ordered per-page extraction
results, starting from zero totals. -/
def aggregateTotals (rs : List ExtractionRes) : ℚ × ℚ := rs.foldl aggregateStep (0, 0)

/-! ## Tax Calculator (main.py lines 59-69 and 185-206) -/

/-- One bracket (lower, upper, rate); the unbounded top bracket has no
upper value, standing for the float infinity of the source. -/
structure TaxBracket where
  lower : ℚ
  upper : Option ℚ
  rate : ℚ
deriving DecidableEq, Repr

/-- STANDARD_DEDUCTIONS of the source, an association list in source
order (it also contains the alias keys). -/
def STANDARD_DEDUCTIONS : List (List Nat × ℚ) :=
  [(strCodes "Single", 14600), (strCodes "Married Filing Jointly", 29200),
   (strCodes "MFJ", 29200),
   (strCodes "Married Filing Separately", 14600), (strCodes "MFS", 14600),
   (strCodes "Head of Household", 21900), (strCodes "HoH", 21900)]

/-- The Single bracket row of TAX_BRACKETS_2024 (rates written as exact
rationals, 10/100 for the 0.10 of the source and so on). -/
def singleBrackets : List TaxBracket :=
  [⟨0, some 11600, mkRat 10 100⟩, ⟨11601, some 47150, mkRat 12 100⟩,
   ⟨47151, some 100525, mkRat 22 100⟩, ⟨100526, some 191950, mkRat 24 100⟩,
   ⟨191951, some 243725, mkRat 32 100⟩, ⟨243726, some 609350, mkRat 35 100⟩,
   ⟨609351, none, mkRat 37 100⟩]

/-- The Married Filing Jointly bracket row of TAX_BRACKETS_2024. -/
def mfjBrackets : List TaxBracket :=
  [⟨0, some 23200, mkRat 10 100⟩, ⟨23201, some 94300, mkRat 12 100⟩,
   ⟨94301, some 201050, mkRat 22 100⟩, ⟨201051, some 383900, mkRat 24 100⟩,
   ⟨383901, some 487450, mkRat 32 100⟩, ⟨487451, some 731200, mkRat 35 100⟩,
   ⟨731201, none, mkRat 37 100⟩]

/-- The Married Filing Separately bracket row of TAX_BRACKETS_2024. -/
def mfsBrackets : List TaxBracket :=
  [⟨0, some 11600, mkRat 10 100⟩, ⟨11601, some 47150, mkRat 12 100⟩,
   ⟨47151, some 100525, mkRat 22 100⟩, ⟨100526, some 191950, mkRat 24 100⟩,
   ⟨191951, some 243725, mkRat 32 100⟩, ⟨243726, some 365600, mkRat 35 100⟩,
   ⟨365601, none, mkRat 37 100⟩]

/-- The Head of Household bracket row of TAX_BRACKETS_2024. -/
def hohBrackets : List TaxBracket :=
  [⟨0, some 16550, mkRat 10 100⟩, ⟨16551, some 63100, mkRat 12 100⟩,
   ⟨63101, some 100500, mkRat 22 100⟩, ⟨100501, some 191950, mkRat 24 100⟩,
   ⟨191951, some 243700, mkRat 32 100⟩, ⟨243701, some 609350, mkRat 35 100⟩,
   ⟨609351, none, mkRat 37 100⟩]

/-- TAX_BRACKETS_2024 of the source, keyed by the four full status
names only. -/
def TAX_BRACKETS_2024 : List (List Nat × List TaxBracket) :=
  [(strCodes "Single", singleBrackets),
   (strCodes "Married Filing Jointly", mfjBrackets),
   (strCodes "Married Filing Separately", mfsBrackets),
   (strCodes "Head of Household", hohBrackets)]

/-- Python str.upper on ASCII text. -/
def pyUpper (l : List Nat) : List Nat := l.map upperCode

/-- filing_status.replace(space, empty): drop every space. -/
def removeSpaces (l : List Nat) : List Nat := l.filter (fun c => c != 32)

/-- Worker of Python str.title: the flag records whether the previous
character was cased; a cased character is upper-cased after an uncased
one and lower-cased after a cased one. -/
def pyTitleGo : Bool → List Nat → List Nat
  | _, [] => []
  | prev, c :: cs =>
      if isAlphaCode c then (if prev then lowerCode c else upperCode c) :: pyTitleGo true cs
      else c :: pyTitleGo false cs

/-- Python str.title on ASCII text. -/
def pyTitle (l : List Nat) : List Nat := pyTitleGo false l

/-- The status_map alias dictionary of calculate_tax_liability. -/
def statusAliasMap : List (List Nat × List Nat) :=
  [(strCodes "MFJ", strCodes "Married Filing Jointly"),
   (strCodes "MFS", strCodes "Married Filing Separately"),
   (strCodes "HOH", strCodes "Head of Household")]

/-- Lines 187-191 of the source: normalize the filing status through
the alias map (after upper-casing and removing spaces, falling back to
title case), then default any key absent from STANDARD_DEDUCTIONS to
Single. -/
def resolveFilingStatus (s : List Nat) : List Nat :=
  let normalized := (statusAliasMap.lookup (removeSpaces (pyUpper s))).getD (pyTitle s)
  if (STANDARD_DEDUCTIONS.lookup normalized).isSome then normalized
  else strCodes "Single"

/-- The bracket walk of calculate_tax_liability: stop when the
remaining income is exhausted, otherwise tax the part of the remaining
income that fits in the bracket and continue. -/
def bracketTax : List TaxBracket → ℚ → ℚ → ℚ
  | [], _, acc => acc
  | b :: bs, remaining, acc =>
      if remaining ≤ 0 then acc
      else
        let width := match b.upper with
          | none => remaining
          | some u => min remaining (u - b.lower)
        bracketTax bs (remaining - width) (acc + width * b.rate)

/-- The result dictionary of calculate_tax_liability. -/
structure TaxSummary where
  gross_income : ℚ
  standard_deduction_applied : ℚ
  taxable_income : ℚ
  calculated_tax : ℚ
  total_federal_withheld : ℚ
  tax_due_or_refund : ℚ
deriving DecidableEq, Repr

/-- calculate_tax_liability from the source.  The dictionary lookups
are modelled exactly; a missing key would be a Python KeyError, here
the none result. -/
def calculate_tax_liability (income federal_withheld : ℚ)
    (filing_status : List Nat) : Option TaxSummary :=
  let normalized := resolveFilingStatus filing_status
  match STANDARD_DEDUCTIONS.lookup normalized, TAX_BRACKETS_2024.lookup normalized with
  | some sd, some brackets =>
      let taxable := max 0 (income - sd)
      let tax := bracketTax brackets taxable 0
      some ⟨income, sd, taxable, tax, federal_withheld, tax - federal_withheld⟩
  | _, _ => none

/-! ## Claim-side definitions (restating the specification text, to be
compared with the source-derived definitions above) -/

/-- Modelled from the spec: the first candidate attaining the maximal
score (ties broken by first occurrence in the returned sequence). -/
def firstMaxCand : List CandidateAnswer → Option CandidateAnswer
  | [] => none
  | c :: cs =>
      match firstMaxCand cs with
      | none => some c
      | some d => if d.score > c.score then some d else some c

/-- Modelled from the spec: walk the brackets from lowest to highest,
taxing in each bracket the part of the remaining income that fits. -/
def specTaxWalk : List TaxBracket → ℚ → ℚ
  | [], _ => 0
  | b :: bs, rem =>
      if rem ≤ 0 then 0
      else
        let width := match b.upper with
          | none => rem
          | some u => min rem (u - b.lower)
        width * b.rate + specTaxWalk bs (rem - width)

/-- Chain check over consecutive bracket pairs. -/
def chainBy (step : TaxBracket → TaxBracket → Bool) : List TaxBracket → Bool
  | [] => true
  | [_] => true
  | a :: b :: rest => step a b && chainBy step (b :: rest)

/-- Modelled from the spec claim: a lower bound coincides with the
previous upper bound. -/
def lowerEqPrevUpper (b1 b2 : TaxBracket) : Bool :=
  match b1.upper with
  | some u => b2.lower == u
  | none => false

/-- The amended adjacency: a lower bound is the previous upper bound
plus one (whole-dollar granularity of the 2024 IRS table). -/
def lowerSuccUpper (b1 b2 : TaxBracket) : Prop :=
  ∃ u, b1.upper = some u ∧ b2.lower = u + 1

/-- Modelled from the spec claim: ordered bracket tuples covering 0 to
infinity with adjacent bounds coinciding. -/
def bracketTableClaim (bs : List TaxBracket) : Bool :=
  (match bs.head? with | some b => b.lower == 0 | none => false) &&
  (match bs.getLast? with | some b => b.upper.isNone | none => false) &&
  chainBy lowerEqPrevUpper bs

/-- The amended table shape: first lower bound 0, unbounded last
bracket, and each lower bound one more than the previous upper bound. -/
def bracketTableAmendedP (bs : List TaxBracket) : Prop :=
  (∃ b, bs.head? = some b ∧ b.lower = 0) ∧
  (∃ b, bs.getLast? = some b ∧ b.upper = none) ∧
  List.Chain' lowerSuccUpper bs

/-- Modelled from the spec: the gross-income contribution of one
extraction result (W-2 wages, 1099-NEC nonemployee compensation,
1099-INT interest income, each defaulting to 0 when absent). -/
def contribGI (r : ExtractionRes) : ℚ :=
  match r.form_type with
  | .w2 => fieldsGet r.fields "wages_tips_other_comp"
  | .nec1099 => fieldsGet r.fields "nonemployee_compensation"
  | .int1099 => fieldsGet r.fields "interest_income"
  | .unknown => 0

/-- Modelled from the spec: the federal-withholding contribution of
one extraction result (only a W-2 contributes). -/
def contribFW (r : ExtractionRes) : ℚ :=
  match r.form_type with
  | .w2 => fieldsGet r.fields "federal_income_tax_withheld"
  | _ => 0

/-! ## Proof-helper definitions -/

/-- Combine the best candidate of an earlier segment with the best of a
later one: the later wins only with a strictly larger score. -/
def mergeBest : Option CandidateAnswer → Option CandidateAnswer → Option CandidateAnswer
  | none, y => y
  | some a, none => some a
  | some a, some c => if c.score > a.score then some c else some a

/-- Shape invariant of Python str.title output: no uppercase letter
directly follows a letter. -/
def titleShape : List Nat → Bool
  | a :: b :: rest => (!(isAlphaCode a && isUpperCode b)) && titleShape (b :: rest)
  | _ => true

/-- Invariant of the findall scan state: no accumulated character is a
digit (used for texts without digits). -/
def stateNoDigit : NumScanState → Prop
  | .scan => True
  | .run acc => acc.all (fun c => !isDigitCode c) = true
  | .frac w acc => w.all (fun c => !isDigitCode c) = true ∧ acc.all (fun c => !isDigitCode c) = true


/-! ## Claim theorems -/

/-! ### Lemmas on the filing-status normalization -/

theorem upper_not_upperCode_of_alpha_lower (c : Nat) (h : isAlphaCode c = false) :
    isUpperCode c = false := by
  simp only [isAlphaCode, Bool.or_eq_false_iff] at h
  exact h.1

theorem lowerCode_not_upper (c : Nat) : isUpperCode (lowerCode c) = false := by
  cases hu : isUpperCode c with
  | false =>
    rw [lowerCode, if_neg (by simp [hu])]
    exact hu
  | true =>
    have hr : 65 ≤ c ∧ c ≤ 90 := by
      simpa [isUpperCode, Bool.and_eq_true, decide_eq_true_eq] using hu
    rw [lowerCode, if_pos (by simp [hu])]
    simp only [isUpperCode, Bool.and_eq_false_iff, decide_eq_false_iff_not]
    omega

theorem titleGo_true_head (l : List Nat) (h : Nat) (tl : List Nat)
    (heq : pyTitleGo true l = h :: tl) : isUpperCode h = false := by
  cases l with
  | nil => cases heq
  | cons c cs =>
    by_cases ha : isAlphaCode c = true
    · simp only [pyTitleGo, ha, if_true] at heq
      obtain ⟨rfl, -⟩ : lowerCode c = h ∧ _ := by
        simpa using List.cons.inj heq
      exact lowerCode_not_upper c
    · rw [pyTitleGo, if_neg ha] at heq
      obtain ⟨rfl, -⟩ : c = h ∧ _ := by
        simpa using List.cons.inj heq
      exact upper_not_upperCode_of_alpha_lower c (by simpa using ha)

theorem titleShape_titleGo (l : List Nat) : ∀ prev, titleShape (pyTitleGo prev l) = true := by
  induction l with
  | nil => intro _; rfl
  | cons c cs ih =>
    intro prev
    by_cases ha : isAlphaCode c = true
    · simp only [pyTitleGo, ha, if_true]
      rcases hr : pyTitleGo true cs with _ | ⟨h2, tl⟩
      · rfl
      · have h2u : isUpperCode h2 = false := titleGo_true_head cs h2 tl hr
        have hrest := ih true
        rw [hr] at hrest
        simp only [titleShape, h2u, Bool.and_false, Bool.not_false, Bool.true_and]
        exact hrest
    · simp only [pyTitleGo, ha, Bool.false_eq_true, if_false]
      rcases hr : pyTitleGo false cs with _ | ⟨h2, tl⟩
      · rfl
      · have hcu : isAlphaCode c = false := by simpa using ha
        have hrest := ih false
        rw [hr] at hrest
        simp only [titleShape, hcu, Bool.false_and, Bool.not_false, Bool.true_and]
        exact hrest

theorem pyTitle_shape (l : List Nat) : titleShape (pyTitle l) = true :=
  titleShape_titleGo l false

theorem pyTitle_ne_alias (l : List Nat) :
    pyTitle l ≠ strCodes "MFJ" ∧ pyTitle l ≠ strCodes "MFS" ∧ pyTitle l ≠ strCodes "HoH" := by
  refine ⟨?_, ?_, ?_⟩ <;> intro h <;> have hs := pyTitle_shape l <;> rw [h] at hs <;>
    exact absurd hs (by decide)

theorem resolveFilingStatus_mem (s : List Nat) :
    resolveFilingStatus s = strCodes "Single" ∨
    resolveFilingStatus s = strCodes "Married Filing Jointly" ∨
    resolveFilingStatus s = strCodes "Married Filing Separately" ∨
    resolveFilingStatus s = strCodes "Head of Household" := by
  rw [resolveFilingStatus]
  rcases hl : statusAliasMap.lookup (removeSpaces (pyUpper s)) with _ | v
  · simp only [Option.getD_none]
    by_cases hsd : (STANDARD_DEDUCTIONS.lookup (pyTitle s)).isSome = true
    · rw [if_pos hsd]
      obtain ⟨p, hp, hk⟩ := List.lookup_isSome_iff.mp hsd
      have hkey : pyTitle s = p.1 := by simpa using hk
      obtain ⟨hne1, hne2, hne3⟩ := pyTitle_ne_alias s
      simp only [STANDARD_DEDUCTIONS, List.mem_cons, List.not_mem_nil, or_false] at hp
      rcases hp with rfl | rfl | rfl | rfl | rfl | rfl | rfl
      · exact Or.inl hkey
      · exact Or.inr (Or.inl hkey)
      · exact absurd hkey hne1
      · exact Or.inr (Or.inr (Or.inl hkey))
      · exact absurd hkey hne2
      · exact Or.inr (Or.inr (Or.inr hkey))
      · exact absurd hkey hne3
    · rw [if_neg hsd]
      exact Or.inl rfl
  · simp only [Option.getD_some]
    obtain ⟨l₁, l₂, hdec, -⟩ := List.lookup_eq_some_iff.mp hl
    have hmem : (removeSpaces (pyUpper s), v) ∈ statusAliasMap := by
      rw [hdec]
      exact List.mem_append_right _ (List.mem_cons_self _ _)
    simp only [statusAliasMap, List.mem_cons, List.not_mem_nil, or_false,
      Prod.mk.injEq] at hmem
    rcases hmem with ⟨-, rfl⟩ | ⟨-, rfl⟩ | ⟨-, rfl⟩
    · rw [if_pos (by decide)]
      exact Or.inr (Or.inl rfl)
    · rw [if_pos (by decide)]
      exact Or.inr (Or.inr (Or.inl rfl))
    · rw [if_pos (by decide)]
      exact Or.inr (Or.inr (Or.inr rfl))

theorem calc_on_resolved (i w : ℚ) (s name : List Nat) (sd : ℚ) (br : List TaxBracket)
    (hres : resolveFilingStatus s = name)
    (hsd : STANDARD_DEDUCTIONS.lookup name = some sd)
    (htb : TAX_BRACKETS_2024.lookup name = some br) :
    calculate_tax_liability i w s =
      some ⟨i, sd, max 0 (i - sd), bracketTax br (max 0 (i - sd)) 0, w,
        bracketTax br (max 0 (i - sd)) 0 - w⟩ := by
  simp only [calculate_tax_liability, hres, hsd, htb]

theorem bracketTax_eq_specTaxWalk (bs : List TaxBracket) :
    ∀ rem acc : ℚ, bracketTax bs rem acc = acc + specTaxWalk bs rem := by
  induction bs with
  | nil => intro rem acc; simp [bracketTax, specTaxWalk]
  | cons b bs ih =>
    intro rem acc
    simp only [bracketTax, specTaxWalk]
    split_ifs with h
    · simp
    · rw [ih]
      ring

theorem calc_general (i w : ℚ) (s name : List Nat) (sd : ℚ) (br : List TaxBracket)
    (hres : resolveFilingStatus s = name)
    (hsd : STANDARD_DEDUCTIONS.lookup name = some sd)
    (htb : TAX_BRACKETS_2024.lookup name = some br) :
    ∃ sum, calculate_tax_liability i w s = some sum ∧
      sum.gross_income = i ∧
      sum.standard_deduction_applied = sd ∧
      sum.taxable_income = max 0 (i - sd) ∧
      sum.calculated_tax = specTaxWalk br (max 0 (i - sd)) ∧
      sum.total_federal_withheld = w ∧
      sum.tax_due_or_refund = sum.calculated_tax - w := by
  refine ⟨_, calc_on_resolved i w s name sd br hres hsd htb, rfl, rfl, rfl, ?_, rfl, rfl⟩
  show bracketTax br (max 0 (i - sd)) 0 = _
  rw [bracketTax_eq_specTaxWalk, zero_add]

/-- C5: for every income, withholding and filing-status string, the
calculator resolves the status, subtracts the resolved standard
deduction (clamped at zero), walks the resolved bracket row from lowest
to highest taxing in each bracket the part of the remaining income that
fits, and reports calculated tax minus withholding; for Single at
50000 income and 5000 withheld this gives deduction 14600, taxable
income 35400, tax 4016 and refund 984. -/
theorem c5_tax_calculator :
    (∀ (i w : ℚ) (s : List Nat),
      ∃ sd brackets sum,
        STANDARD_DEDUCTIONS.lookup (resolveFilingStatus s) = some sd ∧
        TAX_BRACKETS_2024.lookup (resolveFilingStatus s) = some brackets ∧
        calculate_tax_liability i w s = some sum ∧
        sum.gross_income = i ∧
        sum.standard_deduction_applied = sd ∧
        sum.taxable_income = max 0 (i - sd) ∧
        sum.calculated_tax = specTaxWalk brackets (max 0 (i - sd)) ∧
        sum.total_federal_withheld = w ∧
        sum.tax_due_or_refund = sum.calculated_tax - w) ∧
    calculate_tax_liability 50000 5000 (strCodes "Single") =
      some ⟨50000, 14600, 35400, 4016, 5000, -984⟩ := by
  constructor
  · intro i w s
    rcases resolveFilingStatus_mem s with h | h | h | h
    · obtain ⟨sum, hs⟩ := calc_general i w s _ 14600 singleBrackets h (by decide) (by decide)
      exact ⟨14600, singleBrackets, sum, by rw [h]; decide, by rw [h]; decide, hs⟩
    · obtain ⟨sum, hs⟩ := calc_general i w s _ 29200 mfjBrackets h (by decide) (by decide)
      exact ⟨29200, mfjBrackets, sum, by rw [h]; decide, by rw [h]; decide, hs⟩
    · obtain ⟨sum, hs⟩ := calc_general i w s _ 14600 mfsBrackets h (by decide) (by decide)
      exact ⟨14600, mfsBrackets, sum, by rw [h]; decide, by rw [h]; decide, hs⟩
    · obtain ⟨sum, hs⟩ := calc_general i w s _ 21900 hohBrackets h (by decide) (by decide)
      exact ⟨21900, hohBrackets, sum, by rw [h]; decide, by rw [h]; decide, hs⟩
  · have hmax : max (0:ℚ) (50000 - 14600) = 35400 := by norm_num
    have htax : bracketTax singleBrackets 35400 0 = 4016 := by
      norm_num [bracketTax, singleBrackets, Rat.mkRat_eq_div, min_def]
    rw [calc_on_resolved 50000 5000 (strCodes "Single") (strCodes "Single") 14600
      singleBrackets (by decide) (by decide) (by decide), hmax, htax]
    norm_num

/-- C7: the tax calculator is total on every filing-status string; the
aliases MFJ, MFS and HoH normalize to the full status names, the
unrecognized status Foo resolves to Single, and computing with Foo
agrees with computing with Single. -/
theorem c7_status_fallback :
    (∀ (i w : ℚ) (s : List Nat), (calculate_tax_liability i w s).isSome = true) ∧
    resolveFilingStatus (strCodes "MFJ") = strCodes "Married Filing Jointly" ∧
    resolveFilingStatus (strCodes "MFS") = strCodes "Married Filing Separately" ∧
    resolveFilingStatus (strCodes "HoH") = strCodes "Head of Household" ∧
    resolveFilingStatus (strCodes "Foo") = strCodes "Single" ∧
    (∀ i w : ℚ, calculate_tax_liability i w (strCodes "Foo") =
      calculate_tax_liability i w (strCodes "Single")) := by
  refine ⟨?_, by decide, by decide, by decide, by decide, ?_⟩
  · intro i w s
    rcases resolveFilingStatus_mem s with h | h | h | h
    · rw [calc_on_resolved i w s _ 14600 singleBrackets h (by decide) (by decide)]; rfl
    · rw [calc_on_resolved i w s _ 29200 mfjBrackets h (by decide) (by decide)]; rfl
    · rw [calc_on_resolved i w s _ 14600 mfsBrackets h (by decide) (by decide)]; rfl
    · rw [calc_on_resolved i w s _ 21900 hohBrackets h (by decide) (by decide)]; rfl
  · intro i w
    have h1 : resolveFilingStatus (strCodes "Foo") = strCodes "Single" := by decide
    have h2 : resolveFilingStatus (strCodes "Single") = strCodes "Single" := by decide
    simp only [calculate_tax_liability, h1, h2]

/-! ### Lemmas on the Aggregator -/

theorem aggregateStep_eq (acc : ℚ × ℚ) (r : ExtractionRes) :
    aggregateStep acc r = (acc.1 + contribGI r, acc.2 + contribFW r) := by
  rcases hft : r.form_type <;>
    simp [aggregateStep, contribGI, contribFW, hft, Prod.mk.eta]

theorem aggregate_foldl (rs : List ExtractionRes) :
    ∀ a b : ℚ, rs.foldl aggregateStep (a, b) =
      (a + (rs.map contribGI).sum, b + (rs.map contribFW).sum) := by
  induction rs with
  | nil => intro a b; simp
  | cons r rest ih =>
    intro a b
    rw [List.foldl_cons, aggregateStep_eq]
    show rest.foldl aggregateStep (a + contribGI r, b + contribFW r) = _
    rw [ih]
    simp [List.sum_cons, add_assoc]

theorem aggregateTotals_eq_sums (rs : List ExtractionRes) :
    aggregateTotals rs = ((rs.map contribGI).sum, (rs.map contribFW).sum) := by
  rw [aggregateTotals, aggregate_foldl]
  simp

/-- C6: one accumulation step adds the W-2 wages and withholding, the
1099-NEC nonemployee compensation, or the 1099-INT interest of the
result (absent fields defaulting to 0); the totals are the sums of
these contributions, hence invariant under permutation of the results;
a W-2 with wages 60000 and withholding 8000 plus a 1099-INT with
interest 500 yields totals 60500 and 8000. -/
theorem c6_aggregator :
    (∀ (acc : ℚ × ℚ) (r : ExtractionRes),
      aggregateStep acc r = (acc.1 + contribGI r, acc.2 + contribFW r)) ∧
    (∀ rs : List ExtractionRes,
      aggregateTotals rs = ((rs.map contribGI).sum, (rs.map contribFW).sum)) ∧
    (∀ rs rs' : List ExtractionRes, rs.Perm rs' →
      aggregateTotals rs = aggregateTotals rs') ∧
    aggregateTotals
      [⟨.w2, [("wages_tips_other_comp", 60000), ("federal_income_tax_withheld", 8000)]⟩,
       ⟨.int1099, [("interest_income", 500)]⟩] = (60500, 8000) := by
  refine ⟨aggregateStep_eq, aggregateTotals_eq_sums, ?_, ?_⟩
  · intro rs rs' hp
    rw [aggregateTotals_eq_sums, aggregateTotals_eq_sums,
      (hp.map contribGI).sum_eq, (hp.map contribFW).sum_eq]
  · rw [aggregateTotals, List.foldl_cons, List.foldl_cons, List.foldl_nil,
      aggregateStep_eq, aggregateStep_eq]
    have h1 : contribGI ⟨.w2,
        [("wages_tips_other_comp", (60000 : ℚ)), ("federal_income_tax_withheld", 8000)]⟩ =
        60000 := by decide
    have h2 : contribFW ⟨.w2,
        [("wages_tips_other_comp", (60000 : ℚ)), ("federal_income_tax_withheld", 8000)]⟩ =
        8000 := by decide
    have h3 : contribGI ⟨.int1099, [("interest_income", (500 : ℚ))]⟩ = 500 := by decide
    have h4 : contribFW ⟨.int1099, [("interest_income", (500 : ℚ))]⟩ = 0 := by decide
    rw [h1, h2, h3, h4]
    norm_num

/-- Witness for C6: the permutation hypothesis at the two-result list
and its swap. -/
theorem c6_aggregator_witness :
    ([⟨FormType.w2, [("wages_tips_other_comp", (60000 : ℚ)),
        ("federal_income_tax_withheld", 8000)]⟩,
      ⟨FormType.int1099, [("interest_income", 500)]⟩] : List ExtractionRes).Perm
      [⟨FormType.int1099, [("interest_income", 500)]⟩,
       ⟨FormType.w2, [("wages_tips_other_comp", 60000),
         ("federal_income_tax_withheld", 8000)]⟩] ∧
    aggregateTotals
      [⟨FormType.w2, [("wages_tips_other_comp", (60000 : ℚ)),
         ("federal_income_tax_withheld", 8000)]⟩,
       ⟨FormType.int1099, [("interest_income", 500)]⟩] =
      aggregateTotals
        [⟨FormType.int1099, [("interest_income", 500)]⟩,
         ⟨FormType.w2, [("wages_tips_other_comp", 60000),
           ("federal_income_tax_withheld", 8000)]⟩] :=
  ⟨List.Perm.swap _ _ _, c6_aggregator.2.2.1 _ _ (List.Perm.swap _ _ _)⟩

/-- C10 counterexample: in the Single bracket row the second lower
bound is 11601, not the first upper bound 11600, so adjacent bounds do
not coincide as the claim states. -/
theorem c10_bracket_counterexample :
    TAX_BRACKETS_2024.lookup (strCodes "Single") = some singleBrackets ∧
    bracketTableClaim singleBrackets = false ∧
    singleBrackets.get? 0 = some ⟨0, some 11600, mkRat 10 100⟩ ∧
    singleBrackets.get? 1 = some ⟨11601, some 47150, mkRat 12 100⟩ ∧
    ¬((11601 : ℚ) = 11600) := by decide

/-- C10 as amended: every bracket row starts at lower bound 0, ends in
an unbounded bracket, and each lower bound is the previous upper bound
plus one whole dollar. -/
theorem c10_bracket_tables :
    (bracketTableAmendedP singleBrackets ∧ bracketTableAmendedP mfjBrackets ∧
      bracketTableAmendedP mfsBrackets ∧ bracketTableAmendedP hohBrackets) ∧
    TAX_BRACKETS_2024.lookup (strCodes "Single") = some singleBrackets ∧
    TAX_BRACKETS_2024.lookup (strCodes "Married Filing Jointly") = some mfjBrackets ∧
    TAX_BRACKETS_2024.lookup (strCodes "Married Filing Separately") = some mfsBrackets ∧
    TAX_BRACKETS_2024.lookup (strCodes "Head of Household") = some hohBrackets := by
  refine ⟨⟨?_, ?_, ?_, ?_⟩, by decide, by decide, by decide, by decide⟩
  · refine ⟨⟨_, rfl, rfl⟩, ⟨⟨609351, none, mkRat 37 100⟩, by decide, rfl⟩, ?_⟩
    simp only [singleBrackets, List.chain'_cons, List.chain'_singleton, lowerSuccUpper]
    exact ⟨⟨11600, rfl, by norm_num⟩, ⟨47150, rfl, by norm_num⟩, ⟨100525, rfl, by norm_num⟩,
      ⟨191950, rfl, by norm_num⟩, ⟨243725, rfl, by norm_num⟩, ⟨609350, rfl, by norm_num⟩,
      trivial⟩
  · refine ⟨⟨_, rfl, rfl⟩, ⟨⟨731201, none, mkRat 37 100⟩, by decide, rfl⟩, ?_⟩
    simp only [mfjBrackets, List.chain'_cons, List.chain'_singleton, lowerSuccUpper]
    exact ⟨⟨23200, rfl, by norm_num⟩, ⟨94300, rfl, by norm_num⟩, ⟨201050, rfl, by norm_num⟩,
      ⟨383900, rfl, by norm_num⟩, ⟨487450, rfl, by norm_num⟩, ⟨731200, rfl, by norm_num⟩,
      trivial⟩
  · refine ⟨⟨_, rfl, rfl⟩, ⟨⟨365601, none, mkRat 37 100⟩, by decide, rfl⟩, ?_⟩
    simp only [mfsBrackets, List.chain'_cons, List.chain'_singleton, lowerSuccUpper]
    exact ⟨⟨11600, rfl, by norm_num⟩, ⟨47150, rfl, by norm_num⟩, ⟨100525, rfl, by norm_num⟩,
      ⟨191950, rfl, by norm_num⟩, ⟨243725, rfl, by norm_num⟩, ⟨365600, rfl, by norm_num⟩,
      trivial⟩
  · refine ⟨⟨_, rfl, rfl⟩, ⟨⟨609351, none, mkRat 37 100⟩, by decide, rfl⟩, ?_⟩
    simp only [hohBrackets, List.chain'_cons, List.chain'_singleton, lowerSuccUpper]
    exact ⟨⟨16550, rfl, by norm_num⟩, ⟨63100, rfl, by norm_num⟩, ⟨100500, rfl, by norm_num⟩,
      ⟨191950, rfl, by norm_num⟩, ⟨243700, rfl, by norm_num⟩, ⟨609350, rfl, by norm_num⟩,
      trivial⟩

/-- C3: the form-page filter accepts a page text exactly when at least
two distinct indicators of its fixed set of six case-insensitive form
indicators match the text; a text with exactly one matching indicator
and the empty text are rejected. -/
theorem c3_form_page_filter (t : List Nat) :
    (is_likely_tax_form_page t = true ↔
      ∃ i j : Fin 6, i ≠ j ∧
        [indOMB t, indEIN t, indPayerTIN t, indRecipientTIN t,
          indCopy t, indFormCode t].get i = true ∧
        [indOMB t, indEIN t, indPayerTIN t, indRecipientTIN t,
          indCopy t, indFormCode t].get j = true) ∧
    (List.countP id [indOMB t, indEIN t, indPayerTIN t, indRecipientTIN t,
        indCopy t, indFormCode t] = 1 → is_likely_tax_form_page t = false) ∧
    is_likely_tax_form_page ([] : List Nat) = false := by
  have e : is_likely_tax_form_page t =
      decide (2 ≤ List.countP id [indOMB t, indEIN t, indPayerTIN t,
        indRecipientTIN t, indCopy t, indFormCode t]) := rfl
  rw [e]
  generalize indOMB t = b0
  generalize indEIN t = b1
  generalize indPayerTIN t = b2
  generalize indRecipientTIN t = b3
  generalize indCopy t = b4
  generalize indFormCode t = b5
  revert b0 b1 b2 b3 b4 b5
  decide

/-- Witness for C3 at a text matching exactly one indicator. -/
theorem c3_form_page_filter_witness :
    List.countP id [indOMB (strCodes "OMB No. 1545"), indEIN (strCodes "OMB No. 1545"),
      indPayerTIN (strCodes "OMB No. 1545"), indRecipientTIN (strCodes "OMB No. 1545"),
      indCopy (strCodes "OMB No. 1545"), indFormCode (strCodes "OMB No. 1545")] = 1 ∧
    is_likely_tax_form_page (strCodes "OMB No. 1545") = false :=
  ⟨by decide, (c3_form_page_filter (strCodes "OMB No. 1545")).2.1 (by decide)⟩

/-- C4: the classifier checks the W-2, 1099-NEC and 1099-INT keywords
in that fixed order, case-insensitively, and returns the first form
type whose keyword occurs in the page text, else unknown. -/
theorem c4_form_classifier (t : List Nat) :
    (detectFormType t = .w2 ↔
      searchCI (strCodes "Wages, tips, other compensation") t = true) ∧
    (detectFormType t = .nec1099 ↔
      (searchCI (strCodes "Wages, tips, other compensation") t = false ∧
       searchCI (strCodes "Nonemployee compensation") t = true)) ∧
    (detectFormType t = .int1099 ↔
      (searchCI (strCodes "Wages, tips, other compensation") t = false ∧
       searchCI (strCodes "Nonemployee compensation") t = false ∧
       searchCI (strCodes "Interest Income") t = true)) ∧
    (detectFormType t = .unknown ↔
      (searchCI (strCodes "Wages, tips, other compensation") t = false ∧
       searchCI (strCodes "Nonemployee compensation") t = false ∧
       searchCI (strCodes "Interest Income") t = false)) ∧
    detectFormType (strCodes "box 1 Nonemployee compensation") = .nec1099 ∧
    detectFormType (strCodes "no keyword at all") = .unknown := by
  refine ⟨?_, ?_, ?_, ?_, by decide, by decide⟩ <;>
  · rcases hw : searchCI (strCodes "Wages, tips, other compensation") t <;>
      rcases hn : searchCI (strCodes "Nonemployee compensation") t <;>
      rcases hi : searchCI (strCodes "Interest Income") t <;>
      simp [detectFormType, form_type_keywords, List.find?, hw, hn, hi]

/-- C9: a page that fails the form-page filter, or whose text matches
no form-type keyword, yields form type unknown with no fields and no
question is sent to the question-answering capability; consequently an
unknown form type always comes with an empty fields mapping. -/
theorem c9_unknown_pages (qa : List Nat → List CandidateAnswer) (t : List Nat) :
    ((is_likely_tax_form_page t = false ∨ detectFormType t = .unknown) →
      extract_data_with_ai qa t = (⟨.unknown, []⟩, [])) ∧
    ((extract_data_with_ai qa t).1.form_type = .unknown →
      (extract_data_with_ai qa t).1.fields = []) := by
  rcases hf : is_likely_tax_form_page t <;> rcases hd : detectFormType t <;>
    simp [extract_data_with_ai, hf, hd]

/-- Witness for C9 at the empty page text and the empty capability. -/
theorem c9_unknown_pages_witness :
    (is_likely_tax_form_page ([] : List Nat) = false ∨
      detectFormType ([] : List Nat) = .unknown) ∧
    extract_data_with_ai (fun _ => []) ([] : List Nat) = (⟨.unknown, []⟩, []) :=
  ⟨Or.inl (by decide), (c9_unknown_pages (fun _ => []) []).1 (Or.inl (by decide))⟩

/-! ### Lemmas on the Answer Cleaner -/

theorem foldl_max_mem (vs : List ℚ) (v : ℚ) :
    vs.foldl max v = v ∨ vs.foldl max v ∈ vs := by
  induction vs generalizing v with
  | nil => exact Or.inl rfl
  | cons w ws ih =>
    rcases ih (max v w) with h | h
    · rcases max_choice v w with hm | hm
      · exact Or.inl (by rw [List.foldl_cons, h, hm])
      · exact Or.inr (by rw [List.foldl_cons, h, hm]; exact List.mem_cons_self _ _)
    · exact Or.inr (List.mem_cons_of_mem _ h)

theorem le_foldl_max (vs : List ℚ) (v : ℚ) :
    v ≤ vs.foldl max v ∧ ∀ x ∈ vs, x ≤ vs.foldl max v := by
  induction vs generalizing v with
  | nil => exact ⟨le_refl _, by simp⟩
  | cons w ws ih =>
    obtain ⟨h1, h2⟩ := ih (max v w)
    refine ⟨le_trans (le_max_left _ _) h1, ?_⟩
    intro x hx
    rcases List.mem_cons.mp hx with rfl | hx
    · exact le_trans (le_max_right _ _) h1
    · exact h2 x hx

theorem findallGo_noDigit (t : List Nat) (st : NumScanState)
    (ht : t.all (fun c => !isDigitCode c) = true) (hst : stateNoDigit st) :
    ∀ m ∈ findallGo st t, m.all (fun c => !isDigitCode c) = true := by
  induction t generalizing st with
  | nil =>
    cases st with
    | scan => simp [findallGo]
    | run acc =>
      intro m hm
      simp only [findallGo, List.mem_singleton] at hm
      subst hm; exact hst
    | frac w acc =>
      intro m hm
      simp only [findallGo, List.mem_singleton] at hm
      subst hm
      simp only [List.all_append, List.all_cons, hst.1, hst.2, Bool.and_true, Bool.true_and]
      decide
  | cons c cs ih =>
    simp only [List.all_cons, Bool.and_eq_true] at ht
    obtain ⟨hc, hcs⟩ := ht
    have hcd : isDigitCode c = false := by simpa using hc
    cases st with
    | scan =>
      cases hn : numChar c with
      | true =>
        simp only [findallGo, hn, if_true]
        exact ih (.run [c]) hcs (by simp [stateNoDigit, hcd])
      | false =>
        simp only [findallGo, hn, Bool.false_eq_true, if_false]
        exact ih .scan hcs trivial
    | run acc =>
      cases hn : numChar c with
      | true =>
        simp only [findallGo, hn, if_true]
        refine ih (.run (acc ++ [c])) hcs ?_
        show ((acc ++ [c]).all fun c => !isDigitCode c) = true
        simp only [List.all_append, List.all_cons, List.all_nil, Bool.and_true, Bool.and_eq_true]
        exact ⟨hst, hc⟩
      | false =>
        cases h46 : (c == 46) with
        | true =>
          simp only [findallGo, hn, h46, Bool.false_eq_true, if_false, if_true]
          exact ih (.frac acc []) hcs ⟨hst, rfl⟩
        | false =>
          simp only [findallGo, hn, h46, Bool.false_eq_true, if_false]
          intro m hm
          rcases List.mem_cons.mp hm with rfl | hm
          · exact hst
          · exact ih .scan hcs trivial m hm
    | frac w acc =>
      simp only [findallGo, hcd, Bool.false_eq_true, if_false]
      intro m hm
      rcases List.mem_cons.mp hm with rfl | hm
      · simp only [List.all_append, List.all_cons, hst.1, hst.2, Bool.and_true, Bool.true_and]
        decide
      · cases hn : numChar c with
        | true =>
          rw [hn, if_pos rfl] at hm
          exact ih (.run [c]) hcs (by simp [stateNoDigit, hcd]) m hm
        | false =>
          rw [hn] at hm
          simp only [Bool.false_eq_true, if_false] at hm
          exact ih .scan hcs trivial m hm

theorem mem_pyCleanNumStr {x : Nat} {m : List Nat} (h : x ∈ pyCleanNumStr m) : x ∈ m := by
  simp only [pyCleanNumStr, pyStrip] at h
  rw [List.mem_reverse] at h
  have h2 := (List.dropWhile_sublist _).subset h
  rw [List.mem_reverse] at h2
  have h3 := (List.dropWhile_sublist _).subset h2
  exact List.mem_of_mem_filter (List.mem_of_mem_filter h3)

theorem runConsume (ds : List Nat) (acc rest : List Nat) (h : ds.all isDigitCode = true) :
    findallGo (.run acc) (ds ++ rest) = findallGo (.run (acc ++ ds)) rest := by
  induction ds generalizing acc with
  | nil => simp
  | cons d ds ih =>
    simp only [List.all_cons, Bool.and_eq_true] at h
    have hnum : numChar d = true := by simp [numChar, h.1]
    simp only [List.cons_append, findallGo, hnum, if_true, List.append_eq]
    rw [ih _ h.2]
    simp [List.append_assoc]

theorem fracConsume (fs : List Nat) (w acc rest : List Nat) (h : fs.all isDigitCode = true) :
    findallGo (.frac w acc) (fs ++ rest) = findallGo (.frac w (acc ++ fs)) rest := by
  induction fs generalizing acc with
  | nil => simp
  | cons f fs ih =>
    simp only [List.all_cons, Bool.and_eq_true] at h
    simp only [List.cons_append, findallGo, h.1, if_true, List.append_eq]
    rw [ih _ h.2]
    simp [List.append_assoc]

theorem findall_digits_dot (ds fs : List Nat) (h0 : ds ≠ [])
    (h1 : ds.all isDigitCode = true) (h2 : fs.all isDigitCode = true) :
    findallNums (ds ++ 46 :: fs) = [ds ++ 46 :: fs] := by
  obtain ⟨d, ds', rfl⟩ := List.exists_cons_of_ne_nil h0
  simp only [List.all_cons, Bool.and_eq_true] at h1
  have hnum : numChar d = true := by simp [numChar, h1.1]
  rw [findallNums, List.cons_append]
  show findallGo .scan (d :: (ds' ++ 46 :: fs)) = _
  simp only [findallGo, hnum, if_true]
  rw [runConsume ds' [d] (46 :: fs) h1.2]
  show findallGo (.run (d :: ds')) (46 :: fs) = _
  have h46 : numChar 46 = false := by decide
  simp only [findallGo, h46, Bool.false_eq_true, if_false, beq_self_eq_true, if_true]
  have := fracConsume fs (d :: ds') [] [] h2
  rw [List.append_nil] at this
  rw [this]
  simp [findallGo]

theorem findall_digits (ds : List Nat) (h0 : ds ≠ [])
    (h1 : ds.all isDigitCode = true) : findallNums ds = [ds] := by
  obtain ⟨d, ds', rfl⟩ := List.exists_cons_of_ne_nil h0
  simp only [List.all_cons, Bool.and_eq_true] at h1
  have hnum : numChar d = true := by simp [numChar, h1.1]
  rw [findallNums]
  show findallGo .scan (d :: ds') = _
  simp only [findallGo, hnum, if_true]
  have := runConsume ds' [d] [] h1.2
  rw [List.append_nil] at this
  rw [this]
  simp [findallGo]

theorem digitDot_charFacts (a : Nat) (h : (isDigitCode a || a == 46) = true) :
    (a != 44) = true ∧ (a != 36) = true ∧ isWsCode a = false := by
  have hr : (48 ≤ a ∧ a ≤ 57) ∨ a = 46 := by
    simpa [isDigitCode, Bool.or_eq_true, Bool.and_eq_true, decide_eq_true_eq] using h
  refine ⟨?_, ?_, ?_⟩
  · simp only [bne_iff_ne, ne_eq]; omega
  · simp only [bne_iff_ne, ne_eq]; omega
  · simp only [isWsCode]
    simp only [Bool.or_eq_false_iff, Bool.and_eq_false_iff, beq_eq_false_iff_ne, ne_eq,
      decide_eq_false_iff_not, not_le]
    omega

theorem dropWhile_all_neg (p : Nat → Bool) (l : List Nat)
    (h : l.all (fun c => !p c) = true) : l.dropWhile p = l := by
  cases l with
  | nil => rfl
  | cons c cs =>
    simp only [List.all_cons, Bool.and_eq_true] at h
    have : p c = false := by simpa using h.1
    simp [List.dropWhile_cons, this]

theorem dropWhile_all_pos (p : Nat → Bool) (l : List Nat)
    (h : l.all p = true) : l.dropWhile p = [] := by
  induction l with
  | nil => rfl
  | cons c cs ih =>
    simp only [List.all_cons, Bool.and_eq_true] at h
    simp [List.dropWhile_cons, h.1, ih h.2]

theorem pyCleanNumStr_eq_self (l : List Nat)
    (h : l.all (fun c => isDigitCode c || c == 46) = true) : pyCleanNumStr l = l := by
  have hall := List.all_eq_true.mp h
  have h44 : l.filter (fun c => c != 44) = l :=
    List.filter_eq_self.mpr fun a ha => (digitDot_charFacts a (hall a ha)).1
  have h36 : (l.filter (fun c => c != 44)).filter (fun c => c != 36) = l := by
    rw [h44]
    exact List.filter_eq_self.mpr fun a ha => (digitDot_charFacts a (hall a ha)).2.1
  have hws : l.all (fun c => !isWsCode c) = true :=
    List.all_eq_true.mpr fun a ha => by
      simpa using (digitDot_charFacts a (hall a ha)).2.2
  rw [pyCleanNumStr, h36, pyStrip, dropWhile_all_neg _ _ hws, dropWhile_all_neg,
    List.reverse_reverse]
  rwa [List.all_reverse]

theorem all_digitDot_of_parts (ds fs : List Nat)
    (h1 : ds.all isDigitCode = true) (h2 : fs.all isDigitCode = true) :
    (ds ++ 46 :: fs).all (fun c => isDigitCode c || c == 46) = true := by
  simp only [List.all_append, List.all_cons, Bool.and_eq_true]
  refine ⟨?_, by decide, ?_⟩
  · exact List.all_eq_true.mpr fun a ha => by
      simp [List.all_eq_true.mp h1 a ha]
  · exact List.all_eq_true.mpr fun a ha => by
      simp [List.all_eq_true.mp h2 a ha]

theorem notMem46_of_digits (ds : List Nat) (h : ds.all isDigitCode = true) : 46 ∉ ds := by
  intro hmem
  have := List.all_eq_true.mp h 46 hmem
  simp [isDigitCode] at this

theorem dropWhile_ne46_digits (ds fs : List Nat) (h : ds.all isDigitCode = true) :
    (ds ++ 46 :: fs).dropWhile (fun c => c != 46) = 46 :: fs := by
  induction ds with
  | nil => simp [List.dropWhile_cons]
  | cons d ds ih =>
    simp only [List.all_cons, Bool.and_eq_true] at h
    have hd : (d != 46) = true := by
      have : isDigitCode d = true := h.1
      simp only [isDigitCode, Bool.and_eq_true, decide_eq_true_eq] at this
      simp only [bne_iff_ne, ne_eq]
      omega
    simp [List.dropWhile_cons, hd, ih h.2]

theorem parse_digits_dot (ds fs : List Nat) (h0 : ds ≠ [])
    (h1 : ds.all isDigitCode = true) (h2 : fs.all isDigitCode = true) :
    parsePyFloat (ds ++ 46 :: fs) =
      some (mkRat (natOfDigits (ds ++ fs)) (10 ^ fs.length)) := by
  obtain ⟨d, ds', hds⟩ := List.exists_cons_of_ne_nil h0
  have hcount : (ds ++ 46 :: fs).count 46 ≤ 1 := by
    rw [List.count_append, List.count_eq_zero_of_not_mem (notMem46_of_digits ds h1),
      List.count_cons_self, List.count_eq_zero_of_not_mem (notMem46_of_digits fs h2)]
  have hany : (ds ++ 46 :: fs).any isDigitCode = true := by
    rw [List.any_eq_true]
    refine ⟨d, by simp [hds], ?_⟩
    have := List.all_eq_true.mp h1 d (by simp [hds])
    exact this
  rw [parsePyFloat, if_pos ⟨all_digitDot_of_parts ds fs h1 h2, hcount, hany⟩]
  have hfil : (ds ++ 46 :: fs).filter isDigitCode = ds ++ fs := by
    rw [List.filter_append, List.filter_eq_self.mpr (List.all_eq_true.mp h1),
      List.filter_cons]
    have : isDigitCode 46 = false := by decide
    simp [this, List.filter_eq_self.mpr (List.all_eq_true.mp h2)]
  rw [hfil, dropWhile_ne46_digits ds fs h1]
  simp

theorem parse_digits (ds : List Nat) (h0 : ds ≠ [])
    (h1 : ds.all isDigitCode = true) :
    parsePyFloat ds = some ((natOfDigits ds : ℚ)) := by
  obtain ⟨d, ds', hds⟩ := List.exists_cons_of_ne_nil h0
  have hcount : ds.count 46 ≤ 1 := by
    rw [List.count_eq_zero_of_not_mem (notMem46_of_digits ds h1)]
    omega
  have hany : ds.any isDigitCode = true := by
    rw [List.any_eq_true]
    exact ⟨d, by simp [hds], List.all_eq_true.mp h1 d (by simp [hds])⟩
  have hall : ds.all (fun c => isDigitCode c || c == 46) = true :=
    List.all_eq_true.mpr fun a ha => by simp [List.all_eq_true.mp h1 a ha]
  rw [parsePyFloat, if_pos ⟨hall, hcount, hany⟩]
  have hdig : ∀ a ∈ ds, (fun c => c != 46) a = true := fun a ha => by
    have := List.all_eq_true.mp h1 a ha
    simp only [isDigitCode, Bool.and_eq_true, decide_eq_true_eq] at this
    simp only [bne_iff_ne, ne_eq]
    omega
  rw [List.filter_eq_self.mpr (List.all_eq_true.mp h1),
    dropWhile_all_pos _ _ (List.all_eq_true.mpr hdig)]
  simp [Rat.mkRat_one]

theorem validNumbers_eq_nil_of_noDigit (t : List Nat)
    (h : t.any isDigitCode = false) : validNumbers t = [] := by
  have hall : t.all (fun c => !isDigitCode c) = true := by
    rw [List.all_eq_true]
    intro x hx
    simpa using (List.any_eq_false.mp h) x hx
  rw [validNumbers, List.filterMap_eq_nil_iff]
  intro m hm
  have hmnd := findallGo_noDigit t .scan hall trivial m hm
  rw [parsePyFloat, if_neg]
  rintro ⟨-, -, hany⟩
  obtain ⟨x, hx, hxd⟩ := List.any_eq_true.mp hany
  have := List.all_eq_true.mp hmnd x (mem_pyCleanNumStr hx)
  simp [hxd] at this

theorem clean_eq_foldl_of_validNumbers (t : List Nat) (v : ℚ) (vs : List ℚ)
    (hv : validNumbers t = v :: vs) :
    clean_and_convert_to_float t = vs.foldl max v := by
  cases ha : t.any isDigitCode with
  | false =>
    rw [validNumbers_eq_nil_of_noDigit t ha] at hv
    exact absurd hv (by simp)
  | true =>
    have hne : (findallNums t).isEmpty = false := by
      cases he : (findallNums t).isEmpty with
      | false => rfl
      | true =>
        rw [List.isEmpty_iff] at he
        rw [validNumbers, he] at hv
        exact absurd hv (by simp)
    simp only [clean_and_convert_to_float, ha, Bool.not_true, Bool.false_eq_true,
      if_false, hne, hv]

theorem clean_eq_zero_of_validNumbers_nil (t : List Nat)
    (hnil : validNumbers t = []) : clean_and_convert_to_float t = 0 := by
  cases ha : t.any isDigitCode with
  | false => simp [clean_and_convert_to_float, ha]
  | true =>
    cases he : (findallNums t).isEmpty with
    | true => simp [clean_and_convert_to_float, ha, he]
    | false => simp [clean_and_convert_to_float, ha, he, hnil]

theorem validNumbers_nonneg (t : List Nat) : ∀ v ∈ validNumbers t, 0 ≤ v := by
  intro v hv
  rw [validNumbers] at hv
  obtain ⟨m, _, hp⟩ := List.mem_filterMap.mp hv
  rw [parsePyFloat] at hp
  split_ifs at hp with hg
  obtain rfl : mkRat _ _ = v := Option.some.inj hp
  exact Rat.mkRat_nonneg (Int.natCast_nonneg _) _

/-- C2: the Answer Cleaner returns the maximum of the values parsed
from the number-like matches of the text (and 0 when none parses); it
maps the dollar-comma example to 1234.56, takes the larger of 12 and
1200, maps a digit-free text to 0, and is the identity on an already
clean decimal numeral (digits, then a dot, then digits) as well as on a
plain digit string. -/
theorem c2_answer_cleaner :
    (∀ t : List Nat,
      (validNumbers t = [] → clean_and_convert_to_float t = 0) ∧
      (validNumbers t ≠ [] → clean_and_convert_to_float t ∈ validNumbers t) ∧
      (∀ v ∈ validNumbers t, v ≤ clean_and_convert_to_float t)) ∧
    clean_and_convert_to_float (strCodes "$1,234.56 approx") = 1234.56 ∧
    clean_and_convert_to_float (strCodes "12 and 1,200") = 1200 ∧
    clean_and_convert_to_float (strCodes "no numbers here") = 0 ∧
    (∀ ds fs : List Nat, ds ≠ [] → ds.all isDigitCode = true → fs.all isDigitCode = true →
      clean_and_convert_to_float (ds ++ 46 :: fs) =
        mkRat (natOfDigits (ds ++ fs)) (10 ^ fs.length) ∧
      clean_and_convert_to_float ds = (natOfDigits ds : ℚ)) := by
  refine ⟨?_, ?_, by decide, by decide, ?_⟩
  · intro t
    refine ⟨clean_eq_zero_of_validNumbers_nil t, ?_, ?_⟩
    · intro hne
      rcases hv : validNumbers t with _ | ⟨v, vs⟩
      · exact absurd hv hne
      · rw [clean_eq_foldl_of_validNumbers t v vs hv]
        rcases foldl_max_mem vs v with h | h
        · rw [h]; exact List.mem_cons_self _ _
        · exact List.mem_cons_of_mem _ h
    · intro v0 hv0
      rcases hv : validNumbers t with _ | ⟨v, vs⟩
      · rw [hv] at hv0; exact absurd hv0 (by simp)
      · rw [clean_eq_foldl_of_validNumbers t v vs hv]
        rw [hv] at hv0
        rcases List.mem_cons.mp hv0 with rfl | h
        · exact (le_foldl_max vs v0).1
        · exact (le_foldl_max vs v).2 _ h
  · have h1 : clean_and_convert_to_float (strCodes "$1,234.56 approx") =
        mkRat 123456 100 := by decide
    rw [h1]
    norm_num [mkRat, Rat.normalize]
  · intro ds fs h0 h1 h2
    constructor
    · have hm := findall_digits_dot ds fs h0 h1 h2
      have hp := parse_digits_dot ds fs h0 h1 h2
      have hvn : validNumbers (ds ++ 46 :: fs) =
          [mkRat (natOfDigits (ds ++ fs)) (10 ^ fs.length)] := by
        rw [validNumbers, hm]
        simp [pyCleanNumStr_eq_self _ (all_digitDot_of_parts ds fs h1 h2), hp]
      rw [clean_eq_foldl_of_validNumbers _ _ _ hvn]
      rfl
    · have hm := findall_digits ds h0 h1
      have hp := parse_digits ds h0 h1
      have hall : ds.all (fun c => isDigitCode c || c == 46) = true :=
        List.all_eq_true.mpr fun a ha => by simp [List.all_eq_true.mp h1 a ha]
      have hvn : validNumbers ds = [(natOfDigits ds : ℚ)] := by
        rw [validNumbers, hm]
        simp [pyCleanNumStr_eq_self _ hall, hp]
      rw [clean_eq_foldl_of_validNumbers _ _ _ hvn]
      rfl

/-- Witness for C2, discharging the nonempty-candidates hypothesis at
the text 7 and the idempotence hypotheses at the numeral 1.2. -/
theorem c2_answer_cleaner_witness :
    (validNumbers (strCodes "7") ≠ [] ∧
      clean_and_convert_to_float (strCodes "7") ∈ validNumbers (strCodes "7")) ∧
    (([49] : List Nat) ≠ [] ∧
      clean_and_convert_to_float ([49] ++ 46 :: [50]) =
        mkRat (natOfDigits ([49] ++ [50])) (10 ^ ([50] : List Nat).length)) :=
  ⟨⟨by decide, (c2_answer_cleaner.1 (strCodes "7")).2.1 (by decide)⟩,
   ⟨by decide, (c2_answer_cleaner.2.2.2.2 [49] [50] (by decide) (by decide) (by decide)).1⟩⟩

/-! ### Lemmas on the overflow-aware cleaner -/

theorem parsePyFloat_nonneg (l : List Nat) (q : ℚ)
    (h : parsePyFloat l = some q) : 0 ≤ q := by
  rw [parsePyFloat] at h
  split_ifs at h
  obtain rfl : mkRat _ _ = q := Option.some.inj h
  exact Rat.mkRat_nonneg (Int.natCast_nonneg _) _

theorem parsePyFloatFl_none_iff (l : List Nat) :
    parsePyFloatFl l = none ↔ parsePyFloat l = none := by
  rw [parsePyFloatFl]
  cases parsePyFloat l <;> simp

theorem validNumbersFl_nil_iff (t : List Nat) :
    validNumbersFl t = [] ↔ validNumbers t = [] := by
  rw [validNumbersFl, validNumbers, List.filterMap_eq_nil_iff, List.filterMap_eq_nil_iff]
  constructor <;> intro h m hm
  · exact (parsePyFloatFl_none_iff _).mp (h m hm)
  · exact (parsePyFloatFl_none_iff _).mpr (h m hm)

theorem pyMax_choice (a b : PyFloat) : pyMax a b = a ∨ pyMax a b = b := by
  cases a with
  | inf => exact Or.inl rfl
  | finite qa =>
    cases b with
    | inf => exact Or.inr rfl
    | finite qb =>
      rcases max_choice qa qb with h | h
      · exact Or.inl (by simp [pyMax, h])
      · exact Or.inr (by simp [pyMax, h])

theorem foldl_pyMax_mem (vs : List PyFloat) (v : PyFloat) :
    vs.foldl pyMax v = v ∨ vs.foldl pyMax v ∈ vs := by
  induction vs generalizing v with
  | nil => exact Or.inl rfl
  | cons w ws ih =>
    rcases ih (pyMax v w) with h | h
    · rcases pyMax_choice v w with hm | hm
      · exact Or.inl (by rw [List.foldl_cons, h, hm])
      · exact Or.inr (by rw [List.foldl_cons, h, hm]; exact List.mem_cons_self _ _)
    · exact Or.inr (List.mem_cons_of_mem _ h)

theorem foldl_pyMax_inf (vs : List PyFloat) :
    ∀ v, (v = PyFloat.inf ∨ PyFloat.inf ∈ vs) → vs.foldl pyMax v = PyFloat.inf := by
  induction vs with
  | nil =>
    intro v h
    rcases h with rfl | h
    · rfl
    · exact absurd h (by simp)
  | cons w ws ih =>
    intro v h
    rw [List.foldl_cons]
    rcases h with rfl | h
    · exact ih _ (Or.inl rfl)
    · rcases List.mem_cons.mp h with rfl | h
      · have hw : pyMax v PyFloat.inf = PyFloat.inf := by cases v <;> rfl
        rw [hw]
        exact ih _ (Or.inl rfl)
      · exact ih _ (Or.inr h)

theorem clean_fl_eq_foldl (t : List Nat) (v : PyFloat) (vs : List PyFloat)
    (hv : validNumbersFl t = v :: vs) :
    clean_and_convert_to_float_fl t = vs.foldl pyMax v := by
  have hvnn : validNumbers t ≠ [] := by
    intro h
    exact absurd (((validNumbersFl_nil_iff t).mpr h).symm.trans hv) (by simp)
  cases ha : t.any isDigitCode with
  | false => exact absurd (validNumbers_eq_nil_of_noDigit t ha) hvnn
  | true =>
    have hne : (findallNums t).isEmpty = false := by
      cases he : (findallNums t).isEmpty with
      | false => rfl
      | true =>
        rw [List.isEmpty_iff] at he
        exact absurd (by simp [validNumbers, he]) hvnn
    simp only [clean_and_convert_to_float_fl, ha, Bool.not_true, Bool.false_eq_true,
      if_false, hne, hv]

theorem clean_fl_eq_zero (t : List Nat) (hnil : validNumbersFl t = []) :
    clean_and_convert_to_float_fl t = PyFloat.finite 0 := by
  cases ha : t.any isDigitCode with
  | false => simp [clean_and_convert_to_float_fl, ha]
  | true =>
    cases he : (findallNums t).isEmpty with
    | true => simp [clean_and_convert_to_float_fl, ha, he]
    | false => simp [clean_and_convert_to_float_fl, ha, he, hnil]

theorem validNumbersFl_finite_nonneg (t : List Nat) :
    ∀ p ∈ validNumbersFl t, ∀ q : ℚ, p = PyFloat.finite q → 0 ≤ q := by
  intro p hp q hq
  obtain ⟨m, -, hpar⟩ := List.mem_filterMap.mp hp
  rw [parsePyFloatFl] at hpar
  cases hpp : parsePyFloat (pyCleanNumStr m) with
  | none => rw [hpp] at hpar; cases hpar
  | some q0 =>
    rw [hpp] at hpar
    obtain rfl : (if PYFLOAT_OVERFLOW ≤ q0 then PyFloat.inf else PyFloat.finite q0) = p :=
      Option.some.inj hpar
    split_ifs at hq with ht
    injection hq with h
    rw [← h]
    exact parsePyFloat_nonneg _ _ hpp

theorem validNumbersFl_inf_mem (t : List Nat) (h : PyFloat.inf ∈ validNumbersFl t) :
    ∃ m ∈ findallNums t, ∃ q : ℚ,
      parsePyFloat (pyCleanNumStr m) = some q ∧ PYFLOAT_OVERFLOW ≤ q := by
  obtain ⟨m, hm, hpar⟩ := List.mem_filterMap.mp h
  rw [parsePyFloatFl] at hpar
  cases hpp : parsePyFloat (pyCleanNumStr m) with
  | none => rw [hpp] at hpar; cases hpar
  | some q0 =>
    rw [hpp] at hpar
    have hite := Option.some.inj hpar
    split_ifs at hite with ht
    exact ⟨m, hm, q0, hpp, ht⟩

theorem validNumbersFl_inf_of (t m : List Nat) (hm : m ∈ findallNums t) (q : ℚ)
    (hp : parsePyFloat (pyCleanNumStr m) = some q) (ht : PYFLOAT_OVERFLOW ≤ q) :
    PyFloat.inf ∈ validNumbersFl t := by
  rw [validNumbersFl]
  exact List.mem_filterMap.mpr ⟨m, hm, by simp [parsePyFloatFl, hp, ht]⟩

/-- C8 counterexample: on a run of 400 nine digits the cleaner reaches
float() on an out-of-range decimal string and returns the float
infinity — CPython saturates silently — so the result is not always
finite as the claim states. -/
theorem c8_cleaner_counterexample :
    clean_and_convert_to_float_fl (List.replicate 400 57) = PyFloat.inf ∧
    (clean_and_convert_to_float_fl (List.replicate 400 57)).isFinite = false ∧
    (List.replicate 400 57).all isDigitCode = true := by decide

/-- C8 as amended: the cleaner is total and never raises; every finite
result is non-negative, a text with no digit character yields 0, and
the result is infinite exactly when some number-like substring parses
to a value at or above the double overflow threshold. -/
theorem c8_cleaner_safety_amended (t : List Nat) :
    (∀ q : ℚ, clean_and_convert_to_float_fl t = PyFloat.finite q → 0 ≤ q) ∧
    (t.any isDigitCode = false → clean_and_convert_to_float_fl t = PyFloat.finite 0) ∧
    ((clean_and_convert_to_float_fl t).isFinite = false ↔
      ∃ m ∈ findallNums t, ∃ q : ℚ,
        parsePyFloat (pyCleanNumStr m) = some q ∧ PYFLOAT_OVERFLOW ≤ q) := by
  refine ⟨?_, ?_, ?_, ?_⟩
  · intro q hq
    rcases hv : validNumbersFl t with _ | ⟨v, vs⟩
    · rw [clean_fl_eq_zero t hv] at hq
      injection hq with h
      exact le_of_eq h
    · rw [clean_fl_eq_foldl t v vs hv] at hq
      have hmem : vs.foldl pyMax v ∈ validNumbersFl t := by
        rw [hv]
        rcases foldl_pyMax_mem vs v with h | h
        · rw [h]; exact List.mem_cons_self _ _
        · exact List.mem_cons_of_mem _ h
      exact validNumbersFl_finite_nonneg t _ hmem q hq
  · intro h
    exact clean_fl_eq_zero t
      ((validNumbersFl_nil_iff t).mpr (validNumbers_eq_nil_of_noDigit t h))
  · intro hinf
    have hcl : clean_and_convert_to_float_fl t = PyFloat.inf := by
      cases hc : clean_and_convert_to_float_fl t with
      | inf => rfl
      | finite q => rw [hc] at hinf; simp [PyFloat.isFinite] at hinf
    rcases hv : validNumbersFl t with _ | ⟨v, vs⟩
    · rw [clean_fl_eq_zero t hv] at hcl
      cases hcl
    · rw [clean_fl_eq_foldl t v vs hv] at hcl
      have hmem : vs.foldl pyMax v ∈ v :: vs := by
        rcases foldl_pyMax_mem vs v with h | h
        · rw [h]; exact List.mem_cons_self _ _
        · exact List.mem_cons_of_mem _ h
      have : PyFloat.inf ∈ validNumbersFl t := by
        rw [hv]
        exact hcl ▸ hmem
      exact validNumbersFl_inf_mem t this
  · rintro ⟨m, hm, q, hp, ht⟩
    have hinfmem := validNumbersFl_inf_of t m hm q hp ht
    rcases hv : validNumbersFl t with _ | ⟨v, vs⟩
    · rw [hv] at hinfmem
      exact absurd hinfmem (by simp)
    · rw [hv] at hinfmem
      have hcl : clean_and_convert_to_float_fl t = PyFloat.inf := by
        rw [clean_fl_eq_foldl t v vs hv]
        apply foldl_pyMax_inf
        rcases List.mem_cons.mp hinfmem with h | h
        · exact Or.inl h.symm
        · exact Or.inr h
      rw [hcl]
      rfl

/-- Witness for the amended C8, discharging the finite-result
hypothesis at a 500-dollar answer and the no-digit hypothesis at a
digit-free text. -/
theorem c8_cleaner_safety_amended_witness :
    ((strCodes "no digits at all").any isDigitCode = false ∧
      clean_and_convert_to_float_fl (strCodes "no digits at all") = PyFloat.finite 0) ∧
    (clean_and_convert_to_float_fl (strCodes "$500") = PyFloat.finite 500 ∧ (0 : ℚ) ≤ 500) :=
  ⟨⟨by decide, (c8_cleaner_safety_amended (strCodes "no digits at all")).2.1 (by decide)⟩,
   ⟨by decide, (c8_cleaner_safety_amended (strCodes "$500")).1 500 (by decide)⟩⟩

/-! ### Lemmas on the Field Extractor -/

theorem insertDesc_head (c : CandidateAnswer) (acc : List CandidateAnswer) :
    (insertDesc c acc).head? = mergeBest acc.head? (some c) := by
  cases acc with
  | nil => rfl
  | cons d ds =>
    by_cases h : d.score < c.score
    · simp [insertDesc, mergeBest, h, gt_iff_lt]
    · simp [insertDesc, mergeBest, h, gt_iff_lt]

theorem mergeBest_assoc (x y z : Option CandidateAnswer) :
    mergeBest (mergeBest x y) z = mergeBest x (mergeBest y z) := by
  rcases x with _ | a
  · rfl
  rcases y with _ | b
  · rfl
  rcases z with _ | c
  · simp only [mergeBest]
    split_ifs <;> rfl
  · by_cases hb : b.score > a.score <;> by_cases hcb : c.score > b.score <;>
      by_cases hca : c.score > a.score <;>
      simp only [mergeBest, hb, hcb, hca, if_true, if_false] <;>
      first | rfl | (exfalso; linarith)

theorem mergeBest_some_firstMax (c : CandidateAnswer) (cs : List CandidateAnswer) :
    mergeBest (some c) (firstMaxCand cs) = firstMaxCand (c :: cs) := by
  cases h : firstMaxCand cs <;> simp [mergeBest, firstMaxCand, h]

theorem sortedDesc_head (l : List CandidateAnswer) :
    (pySortedDescByScore l).head? = firstMaxCand l := by
  suffices h : ∀ acc, ((l.foldl (fun a c => insertDesc c a) acc).head? =
      mergeBest acc.head? (firstMaxCand l)) by
    simpa [pySortedDescByScore, mergeBest] using h []
  induction l with
  | nil =>
    intro acc
    cases acc <;> rfl
  | cons c cs ih =>
    intro acc
    rw [List.foldl_cons, ih (insertDesc c acc), insertDesc_head, mergeBest_assoc,
      mergeBest_some_firstMax]

theorem extractFields_lookup_notMem (qa : List Nat → List CandidateAnswer)
    (qs : List (String × List Nat)) (field : String)
    (h : field ∉ qs.map Prod.fst) : (extractFields qa qs).lookup field = none := by
  induction qs with
  | nil => rfl
  | cons p rest ih =>
    obtain ⟨f, q⟩ := p
    simp only [List.map_cons, List.mem_cons] at h
    push_neg at h
    obtain ⟨hne, hrest⟩ := h
    have hbeq : (field == f) = false := beq_eq_false_iff_ne.mpr hne
    simp only [extractFields]
    rcases hs : pySortedDescByScore (qa q) with _ | ⟨best, tail⟩
    · simpa using ih hrest
    · show List.lookup field
          ((if CONFIDENCE_THRESHOLD ≤ best.score then
              [(f, clean_and_convert_to_float best.text)] else []) ++
            extractFields qa rest) = none
      split_ifs with hc
      · simp only [List.cons_append, List.nil_append, List.lookup, hbeq]
        exact ih hrest
      · simpa using ih hrest

theorem extractFields_lookup (qa : List Nat → List CandidateAnswer)
    (qs : List (String × List Nat)) (field : String) (q : List Nat)
    (hnd : (qs.map Prod.fst).Nodup) (hmem : (field, q) ∈ qs) :
    (extractFields qa qs).lookup field =
      (match pySortedDescByScore (qa q) with
       | [] => none
       | best :: _ =>
           if CONFIDENCE_THRESHOLD ≤ best.score then
             some (clean_and_convert_to_float best.text)
           else none) := by
  induction qs with
  | nil => simp at hmem
  | cons p rest ih =>
    obtain ⟨f, q0⟩ := p
    rw [List.map_cons, List.nodup_cons] at hnd
    rcases List.mem_cons.mp hmem with heq | hmem'
    · have h1 : field = f := congrArg Prod.fst heq
      have h2 : q = q0 := congrArg Prod.snd heq
      subst h1
      subst h2
      simp only [extractFields]
      rcases hs : pySortedDescByScore (qa q) with _ | ⟨best, tail⟩
      · simpa using extractFields_lookup_notMem qa rest field hnd.1
      · show List.lookup field
            ((if CONFIDENCE_THRESHOLD ≤ best.score then
                [(field, clean_and_convert_to_float best.text)] else []) ++
              extractFields qa rest) =
          (if CONFIDENCE_THRESHOLD ≤ best.score then
            some (clean_and_convert_to_float best.text) else none)
        split_ifs with hc
        · simp [List.lookup]
        · simpa using extractFields_lookup_notMem qa rest field hnd.1
    · have hf : field ∈ rest.map Prod.fst := List.mem_map.mpr ⟨(field, q), hmem', rfl⟩
      have hbeq : (field == f) = false :=
        beq_eq_false_iff_ne.mpr fun hh => hnd.1 (hh ▸ hf)
      simp only [extractFields]
      rcases hs : pySortedDescByScore (qa q0) with _ | ⟨best, tail⟩
      · simpa using ih hnd.2 hmem'
      · show List.lookup field
            ((if CONFIDENCE_THRESHOLD ≤ best.score then
                [(f, clean_and_convert_to_float best.text)] else []) ++
              extractFields qa rest) = _
        split_ifs with hc
        · simp only [List.cons_append, List.nil_append, List.lookup, hbeq]
          exact ih hnd.2 hmem'
        · simpa using ih hnd.2 hmem'

/-- C1: for a classified form type and any of its field questions, the
field is present in the extraction mapping exactly when the capability
returns a nonempty candidate list whose best score reaches 0.1; its value
is then the cleaned text of the highest-scoring candidate (ties broken
by first occurrence); and the mapping of a classified page is exactly
this per-question extraction. -/
theorem c1_field_extraction (qa : List Nat → List CandidateAnswer) (ft : FormType)
    (field : String) (q : List Nat) (hmem : (field, q) ∈ questions ft) :
    ((extractFields qa (questions ft)).lookup field =
      (match firstMaxCand (qa q) with
       | none => none
       | some best =>
           if CONFIDENCE_THRESHOLD ≤ best.score then
             some (clean_and_convert_to_float best.text)
           else none)) ∧
    (∀ t : List Nat, is_likely_tax_form_page t = true → detectFormType t = ft →
      ft ≠ .unknown →
      (extract_data_with_ai qa t).1 = ⟨ft, extractFields qa (questions ft)⟩) := by
  constructor
  · have hnd : ((questions ft).map Prod.fst).Nodup := by
      cases ft <;> decide
    rw [extractFields_lookup qa (questions ft) field q hnd hmem]
    rcases hs : pySortedDescByScore (qa q) with _ | ⟨best, tail⟩
    · have hf : firstMaxCand (qa q) = none := by
        rw [← sortedDesc_head, hs]; rfl
      rw [hf]
    · have hf : firstMaxCand (qa q) = some best := by
        rw [← sortedDesc_head, hs]; rfl
      rw [hf]
  · intro t hlik hdet hne
    cases ft with
    | unknown => exact absurd rfl hne
    | w2 => simp [extract_data_with_ai, hlik, hdet]
    | nec1099 => simp [extract_data_with_ai, hlik, hdet]
    | int1099 => simp [extract_data_with_ai, hlik, hdet]

/-- Witness for C1 at the 1099-NEC field with a high-confidence, a
low-confidence, and an empty candidate list. -/
theorem c1_field_extraction_witness :
    (("nonemployee_compensation", q_nec) ∈ questions .nec1099) ∧
    (extractFields (fun _ => [⟨strCodes "$500", mkRat 9 10⟩])
      (questions .nec1099)).lookup "nonemployee_compensation" = some 500 ∧
    (extractFields (fun _ => [⟨strCodes "$500", mkRat 5 100⟩])
      (questions .nec1099)).lookup "nonemployee_compensation" = none ∧
    (extractFields (fun _ => [])
      (questions .nec1099)).lookup "nonemployee_compensation" = none :=
  ⟨by decide,
   ((c1_field_extraction (fun _ => [⟨strCodes "$500", mkRat 9 10⟩]) .nec1099
      "nonemployee_compensation" q_nec (by decide)).1).trans (by decide),
   ((c1_field_extraction (fun _ => [⟨strCodes "$500", mkRat 5 100⟩]) .nec1099
      "nonemployee_compensation" q_nec (by decide)).1).trans (by decide),
   ((c1_field_extraction (fun _ => []) .nec1099
      "nonemployee_compensation" q_nec (by decide)).1).trans (by decide)⟩

end TaxAgent
